import Mathlib

/-!
Verification development for the kyutai-rs connection engine
(hekmon/kyutai-rs): shallow embedding of the STT/TTS connection
workers and of the MessagePack wire codec, with theorems settling the
specification's testable properties.

Conventions of the embedding:
* PCM samples are modelled as their IEEE-754 binary32 bit pattern, a
  natural number; the zero sample (silence) is the pattern 0, matching
  Go's zero-initialised `make([]float32, n)`.
* Go `nil` slices are distinguished from non-nil empty slices with
  `Option (List Sample)`: the writer in stt.go tests `buffer == nil`.
* Channels are modelled by the sequence of values a worker consumes
  (for the outbound worker: the submitted batches followed by the
  channel close), and traces record what the worker writes on the
  socket, in order.
-/

/-- PCM sample, as an IEEE-754 binary32 bit pattern. -/
abbrev Sample := Nat

/-- Fixed sample rate of the protocol (stt.go / msgpack.go: 24 kHz). -/
def SampleRate : Nat := 24000

/-- stt.go: `oneSecondOfSilence = make([]float32, SampleRate)` — one
second of zero-valued samples. -/
def oneSecondOfSilence : List Sample := List.replicate SampleRate 0

/-- Go `append` on a possibly-nil base slice: appending an empty batch
to a nil slice leaves it nil (`append(nil)` with no elements returns
nil); appending a non-empty batch to a nil slice yields a non-nil
slice. -/
def goAppend : Option (List Sample) → List Sample → Option (List Sample)
  | none, [] => none
  | none, x :: xs => some (x :: xs)
  | some b, xs => some (b ++ xs)

/-- stt.go:149-159, the full-frame loop of the writer: while the buffer
holds at least `frameSize` samples, emit `buffer[:FrameSize]` and keep
`buffer[FrameSize:]`.  (The source's `FrameSize` constant is positive;
the guard `0 < frameSize` merely keeps the recursion well founded.) -/
def emitFull (frameSize : Nat) (b : List Sample) : List (List Sample) × List Sample :=
  if _h : 0 < frameSize ∧ frameSize ≤ b.length then
    let rest := emitFull frameSize (b.drop frameSize)
    (b.take frameSize :: rest.1, rest.2)
  else
    ([], b)
termination_by b.length
decreasing_by
  simp only [List.length_drop]
  omega

/-- stt.go:133-159, handling of one received batch while the write
channel is open: if the buffer is still nil, first emit the one-second
silence primer; then append the batch and emit all full frames.
Returns the emitted Audio payloads (in order) and the new buffer. -/
def writerOpenStep (frameSize : Nat) (buf : Option (List Sample)) (input : List Sample) :
    List (List Sample) × Option (List Sample) :=
  let primer : List (List Sample) :=
    match buf with
    | none => [oneSecondOfSilence]
    | some _ => []
  match goAppend buf input with
  | none => (primer, none)
  | some b =>
    let fr := emitFull frameSize b
    (primer ++ fr.1, some fr.2)

/-- The writer's loop over all submitted batches (stt.go:131-159),
starting from buffer state `buf`: emitted Audio payloads and final
buffer. -/
def writerFeed (frameSize : Nat) (buf : Option (List Sample)) :
    List (List Sample) → List (List Sample) × Option (List Sample)
  | [] => ([], buf)
  | batch :: rest =>
    let s := writerOpenStep frameSize buf batch
    let t := writerFeed frameSize s.2 rest
    (s.1 ++ t.1, t.2)

/-- Audio payloads emitted while feeding `batches` from a fresh
connection (buffer starts nil). -/
def writerFeedEmits (frameSize : Nat) (batches : List (List Sample)) : List (List Sample) :=
  (writerFeed frameSize none batches).1

/-- Buffer left over after feeding `batches` from a fresh connection. -/
def writerFeedBuf (frameSize : Nat) (batches : List (List Sample)) : Option (List Sample) :=
  (writerFeed frameSize none batches).2

/-- stt.go:163-166: pad the leftover with trailing zeros up to
`frameSize` when it is shorter than a frame. -/
def flushPad (frameSize : Nat) (b : List Sample) : List Sample :=
  if b.length < frameSize then b ++ List.replicate (frameSize - b.length) 0 else b

/-- stt.go:161-177, the flush loop `for len(buffer) > 0`, unrolled for
`fuel` iterations.  One iteration pads the buffer to a frame, sends
it, and then executes `buffer = buffer[:]` — which leaves the buffer
unchanged (`b[:]` is `b[0:len(b)]`), so the padded frame is the next
iteration's buffer.  Returns the frames sent in the first `fuel`
iterations and the buffer the loop then holds; the loop in the source
exits only when that buffer is empty. -/
def flushIter (frameSize : Nat) : Nat → List Sample → List (List Sample) × List Sample
  | 0, b => ([], b)
  | fuel + 1, b =>
    match b with
    | [] => ([], [])
    | x :: xs =>
      let padded := flushPad frameSize (x :: xs)
      let rest := flushIter frameSize fuel padded
      (padded :: rest.1, rest.2)

/-- A message written by the outbound worker on the socket: an Audio
payload or a Marker id. -/
inductive WMsg where
  | audio (pcm : List Sample)
  | marker (id : Int)
deriving DecidableEq

/-- stt.go:160-203, behaviour of the writer once the write channel is
closed, starting from buffer `buf`: run the flush loop (`fuel`
iterations shown); if and only if the loop's buffer has emptied, send
the reserved Marker id 0 and then `ticks` one-second silence Audio
messages (one per ticker firing until the reader signals the echo). -/
def writerClose (frameSize : Nat) (buf : Option (List Sample)) (fuel ticks : Nat) :
    List WMsg :=
  let b := buf.getD []
  let fl := flushIter frameSize fuel b
  (fl.1.map WMsg.audio) ++
    if fl.2 = [] then
      WMsg.marker 0 :: List.replicate ticks (WMsg.audio oneSecondOfSilence)
    else []

/-- Complete socket trace of the outbound worker for a session that
submits `batches` and then closes the write channel (stt.go:125-209).
`fuel` bounds the observed iterations of the flush loop and `ticks`
counts the drain-silence ticker firings. -/
def writerTrace (frameSize : Nat) (batches : List (List Sample)) (fuel ticks : Nat) :
    List WMsg :=
  (writerFeedEmits frameSize batches).map WMsg.audio ++
    writerClose frameSize (writerFeedBuf frameSize batches) fuel ticks

/-- Invariant on the writer's buffer: nil, or shorter than a frame. -/
def bufInv (fs : Nat) : Option (List Sample) → Prop
  | none => True
  | some b => b.length < fs

/-!
## Wire codec

Modelled from the spec: the serializers and deserializers for the
message structs of msgpack.go are produced by a generator
(`go:generate msgp`) and the generated code is not part of the
repository sources; the codec below is modelled from the spec's codec
contract — every message is a compact binary map keyed by short field
names with the discriminator as the first field, values are
self-delimiting, decoding is two-phase (header first, then the full
variant), a full-variant deserializer returns the bytes left over
after the map rather than failing on them (as the callers'
`leftover, err :=` usage shows) — together with the struct shapes
declared in msgpack.go.  Strings are byte sequences, `float32` and
`float64` values are carried as their bit patterns, integers as
two's-complement 64-bit values.
-/

/-- Raw bytes of a wire payload (each entry is one byte). -/
abbrev Bytes := List Nat

/-- Big-endian encoding of `n` on `w` bytes (truncating above 256^w). -/
def toBE : Nat → Nat → Bytes
  | 0, _ => []
  | w + 1, n => toBE w (n / 256) ++ [n % 256]

/-- Big-endian value of a byte sequence. -/
def fromBE (bs : Bytes) : Nat := bs.foldl (fun a b => a * 256 + b) 0

/-- Read exactly `k` bytes, returning them and the remainder. -/
def readN (k : Nat) (b : Bytes) : Option (Bytes × Bytes) :=
  if k ≤ b.length then some (b.take k, b.drop k) else none

/-- Read a `k`-byte big-endian number. -/
def readBE (k : Nat) (b : Bytes) : Option (Nat × Bytes) :=
  (readN k b).map fun p => (fromBE p.1, p.2)

/-- String value: tag 1, 4-byte length, then the bytes. -/
def encStr (s : Bytes) : Bytes := 1 :: (toBE 4 s.length ++ s)

/-- Interpret an unsigned 64-bit value as a signed (two's complement)
one; 9223372036854775808 = 2^63 and 18446744073709551616 = 2^64. -/
def toInt64 (n : Nat) : Int :=
  if n < 9223372036854775808 then (n : Int) else (n : Int) - 18446744073709551616

/-- Integer value: tag 2, 8-byte two's-complement big-endian. -/
def encInt (i : Int) : Bytes := 2 :: toBE 8 (i.emod 18446744073709551616).toNat

/-- Float32-array value: tag 3, 4-byte count, then 4-byte bit patterns. -/
def encF32s (xs : List Nat) : Bytes := 3 :: (toBE 4 xs.length ++ (xs.map (toBE 4)).flatten)

/-- Float64 value: tag 4, 8-byte bit pattern. -/
def encF64 (x : Nat) : Bytes := 4 :: toBE 8 x

/-- Map key: 1-byte length, then the bytes (keys are short names). -/
def encKey (k : Bytes) : Bytes := k.length :: k

/-- One map field: key followed by a tagged value. -/
def encField (k v : Bytes) : Bytes := encKey k ++ v

/-- Parse a string value. -/
def readStr : Bytes → Option (Bytes × Bytes)
  | 1 :: r => do
    let (n, r) ← readBE 4 r
    readN n r
  | _ => none

/-- Parse an integer value. -/
def readInt : Bytes → Option (Int × Bytes)
  | 2 :: r => (readBE 8 r).map fun p => (toInt64 p.1, p.2)
  | _ => none

/-- Parse `n` consecutive 4-byte float32 bit patterns. -/
def readF32Elems : Nat → Bytes → Option (List Nat × Bytes)
  | 0, r => some ([], r)
  | n + 1, r => do
    let (x, r) ← readBE 4 r
    let (xs, r2) ← readF32Elems n r
    some (x :: xs, r2)

/-- Parse a float32-array value. -/
def readF32s : Bytes → Option (List Nat × Bytes)
  | 3 :: r => do
    let (n, r) ← readBE 4 r
    readF32Elems n r
  | _ => none

/-- Parse a float64 value. -/
def readF64 : Bytes → Option (Nat × Bytes)
  | 4 :: r => readBE 8 r
  | _ => none

/-- Skip one tagged value (used when the header decoder passes over
the fields that follow the discriminator). -/
def skipVal : Bytes → Option Bytes
  | 1 :: r => do
    let (n, r) ← readBE 4 r
    (readN n r).map Prod.snd
  | 2 :: r => (readN 8 r).map Prod.snd
  | 3 :: r => do
    let (n, r) ← readBE 4 r
    (readN (4 * n) r).map Prod.snd
  | 4 :: r => (readN 8 r).map Prod.snd
  | _ => none

/-- Parse a map key. -/
def readKey : Bytes → Option (Bytes × Bytes)
  | n :: r => readN n r
  | [] => none

/-- Skip `n` map fields. -/
def skipFields : Nat → Bytes → Option Bytes
  | 0, r => some r
  | n + 1, r => do
    let (_, r) ← readKey r
    let r ← skipVal r
    skipFields n r

/-- Key and type-name byte strings (ASCII) from msgpack.go. -/
def keyType : Bytes := [116, 121, 112, 101]
def keyText : Bytes := [116, 101, 120, 116]
def keyPcm : Bytes := [112, 99, 109]
def keyId : Bytes := [105, 100]
def keyPrs : Bytes := [112, 114, 115]
def keyStepIdx : Bytes := [115, 116, 101, 112, 95, 105, 100, 120]
def keyBufferedPcm : Bytes := [98, 117, 102, 102, 101, 114, 101, 100, 95, 112, 99, 109]
def keyStartTime : Bytes := [115, 116, 97, 114, 116, 95, 116, 105, 109, 101]
def keyStopTime : Bytes := [115, 116, 111, 112, 95, 116, 105, 109, 101]
def nmReady : Bytes := [82, 101, 97, 100, 121]
def nmText : Bytes := [84, 101, 120, 116]
def nmAudio : Bytes := [65, 117, 100, 105, 111]
def nmMarker : Bytes := [77, 97, 114, 107, 101, 114]
def nmStep : Bytes := [83, 116, 101, 112]
def nmWord : Bytes := [87, 111, 114, 100]
def nmEndWord : Bytes := [69, 110, 100, 87, 111, 114, 100]
def nmEos : Bytes := [69, 111, 115]

/-- In-memory wire message, one constructor per variant of the tagged
union (msgpack.go `MessagePack*` structs; the discriminator string is
implied by the constructor). -/
inductive Message where
  | ready
  | text (s : Bytes)
  | audio (pcm : List Nat)
  | marker (id : Int)
  | step (prs : List Nat) (stepIdx : Int) (bufferedPCM : Int)
  | word (txt : Bytes) (startTime : Nat)
  | wordEnd (stopTime : Nat)
deriving DecidableEq

/-- The in-memory value fits its wire representation: strings and
arrays fit a 4-byte length, bytes are bytes, integers fit a signed
64-bit value, bit patterns fit their width. -/
def wfStr (s : Bytes) : Prop := s.length < 4294967296 ∧ ∀ c ∈ s, c < 256
def wfF32s (xs : List Nat) : Prop := xs.length < 4294967296 ∧ ∀ x ∈ xs, x < 4294967296
def wfInt64 (i : Int) : Prop := -9223372036854775808 ≤ i ∧ i < 9223372036854775808
def wfF64 (x : Nat) : Prop := x < 18446744073709551616

def wfMessage : Message → Prop
  | .ready => True
  | .text s => wfStr s
  | .audio pcm => wfF32s pcm
  | .marker id => wfInt64 id
  | .step prs si bp => wfF32s prs ∧ wfInt64 si ∧ wfInt64 bp
  | .word t st => wfStr t ∧ wfF64 st
  | .wordEnd sp => wfF64 sp

instance : DecidablePred wfStr := fun s => by unfold wfStr; infer_instance
instance : DecidablePred wfF32s := fun xs => by unfold wfF32s; infer_instance
instance : DecidablePred wfInt64 := fun i => by unfold wfInt64; infer_instance
instance : DecidablePred wfF64 := fun x => by unfold wfF64; infer_instance
instance : DecidablePred wfMessage := fun m => by
  cases m <;> unfold wfMessage <;> infer_instance

/-- Encoding of a message: field count, then the fields, the
discriminator first.  Total — encoding never fails. -/
def encodeMessage : Message → Bytes
  | .ready => 1 :: encField keyType (encStr nmReady)
  | .text s => 2 :: (encField keyType (encStr nmText) ++ encField keyText (encStr s))
  | .audio pcm => 2 :: (encField keyType (encStr nmAudio) ++ encField keyPcm (encF32s pcm))
  | .marker id => 2 :: (encField keyType (encStr nmMarker) ++ encField keyId (encInt id))
  | .step prs si bp =>
    4 :: (encField keyType (encStr nmStep) ++ encField keyPrs (encF32s prs) ++
      encField keyStepIdx (encInt si) ++ encField keyBufferedPcm (encInt bp))
  | .word t st =>
    3 :: (encField keyType (encStr nmWord) ++ encField keyText (encStr t) ++
      encField keyStartTime (encF64 st))
  | .wordEnd sp => 2 :: (encField keyType (encStr nmEndWord) ++ encField keyStopTime (encF64 sp))

/-- Header (discriminator-only) decoding: read the field count, require
the first field to be the discriminator, skip the remaining fields;
returns the type string and the bytes after the map. -/
def decodeHeader : Bytes → Option (Bytes × Bytes)
  | n :: r =>
    if n = 0 then none
    else do
      let (k, r) ← readKey r
      if k = keyType then do
        let (t, r) ← readStr r
        let r2 ← skipFields (n - 1) r
        some (t, r2)
      else none
  | [] => none

/-- Read one field with the expected key using the given value parser. -/
def readKeyed (key : Bytes) (val : Bytes → Option (α × Bytes)) (b : Bytes) :
    Option (α × Bytes) := do
  let (k, r) ← readKey b
  if k = key then val r else none

/-- Full-variant deserializer for Text: type field then text field;
like the generated code, the discriminator's value is read but not
checked (dispatch has already checked it). -/
def decodeText : Bytes → Option (Bytes × Bytes)
  | 2 :: r => do
    let (_, r) ← readKeyed keyType readStr r
    readKeyed keyText readStr r
  | _ => none

/-- Full-variant deserializer for Audio. -/
def decodeAudio : Bytes → Option (List Nat × Bytes)
  | 2 :: r => do
    let (_, r) ← readKeyed keyType readStr r
    readKeyed keyPcm readF32s r
  | _ => none

/-- Full-variant deserializer for Marker. -/
def decodeMarker : Bytes → Option (Int × Bytes)
  | 2 :: r => do
    let (_, r) ← readKeyed keyType readStr r
    readKeyed keyId readInt r
  | _ => none

/-- Full-variant deserializer for Step. -/
def decodeStep : Bytes → Option ((List Nat × Int × Int) × Bytes)
  | 4 :: r => do
    let (_, r) ← readKeyed keyType readStr r
    let (prs, r) ← readKeyed keyPrs readF32s r
    let (si, r) ← readKeyed keyStepIdx readInt r
    let (bp, r2) ← readKeyed keyBufferedPcm readInt r
    some ((prs, si, bp), r2)
  | _ => none

/-- Full-variant deserializer for Word. -/
def decodeWord : Bytes → Option ((Bytes × Nat) × Bytes)
  | 3 :: r => do
    let (_, r) ← readKeyed keyType readStr r
    let (t, r) ← readKeyed keyText readStr r
    let (st, r2) ← readKeyed keyStartTime readF64 r
    some ((t, st), r2)
  | _ => none

/-- Full-variant deserializer for WordEnd. -/
def decodeWordEnd : Bytes → Option (Nat × Bytes)
  | 2 :: r => do
    let (_, r) ← readKeyed keyType readStr r
    readKeyed keyStopTime readF64 r
  | _ => none

/-- The spec's composite decode contract: decode the header alone,
dispatch on the discriminator to the full variant deserializer, and
fail when the discriminator is unrecognised, when the bytes do not
match the variant's shape, or when bytes trail a complete variant. -/
def decodeMessage (b : Bytes) : Option Message := do
  let (t, hrest) ← decodeHeader b
  if t = nmReady then
    if hrest = [] then some .ready else none
  else if t = nmText then do
    let (s, r) ← decodeText b
    if r = [] then some (.text s) else none
  else if t = nmAudio then do
    let (pcm, r) ← decodeAudio b
    if r = [] then some (.audio pcm) else none
  else if t = nmMarker then do
    let (id, r) ← decodeMarker b
    if r = [] then some (.marker id) else none
  else if t = nmStep then do
    let (v, r) ← decodeStep b
    if r = [] then some (.step v.1 v.2.1 v.2.2) else none
  else if t = nmWord then do
    let (v, r) ← decodeWord b
    if r = [] then some (.word v.1 v.2) else none
  else if t = nmEndWord then do
    let (sp, r) ← decodeWordEnd b
    if r = [] then some (.wordEnd sp) else none
  else none

/-!
## Inbound workers

The STT reader (stt.go:224-309) and the current TTS reader are
modelled as step functions over the events delivered by the websocket
`Read` call, together with a fold running a whole inbound trace.
-/

/-- One event produced by the transport `Read` call. -/
inductive WsEvent where
  | text (payload : Bytes)
  | binary (payload : Bytes)
  | closeNoStatus
  | readFail
deriving DecidableEq

/-- Outcome of one iteration of the STT reader loop: continue with new
drain state having forwarded `out` to the caller channel, or return
(`closedChan` records whether the caller channel was closed on the way
out, `ok` whether the returned error is nil), or panic (a second close
of the flush channel). -/
inductive SttStep where
  | cont (draining flushClosed : Bool) (out : List Message)
  | fin (closedChan ok : Bool)
  | panicked
deriving DecidableEq

/-- One iteration of the STT reader loop (stt.go:231-308), given the
current drain state and the event read from the socket. -/
def sttReaderStep (draining flushClosed : Bool) : WsEvent → SttStep
  | .closeNoStatus => .fin true true
  | .readFail => .fin false false
  | .text _ => .fin false false
  | .binary p =>
    match decodeHeader p with
    | none => .fin false false
    | some (t, _) =>
      if t = nmReady then .cont draining flushClosed [.ready]
      else if t = nmStep then
        match decodeStep p with
        | none => .fin false false
        | some ((prs, si, bp), _) =>
          if draining then
            if bp = 0 then .fin false true
            else .cont draining flushClosed []
          else .cont draining flushClosed [.step prs si bp]
      else if t = nmWord then
        match decodeWord p with
        | none => .fin false false
        | some ((w, st), _) => .cont draining flushClosed [.word w st]
      else if t = nmEndWord then
        match decodeWordEnd p with
        | none => .fin false false
        | some (sp, _) => .cont draining flushClosed [.wordEnd sp]
      else if t = nmMarker then
        match decodeMarker p with
        | none => .fin false false
        | some (id, _) =>
          if id = 0 then
            if flushClosed then .panicked
            else .cont true true []
          else .cont draining flushClosed [.marker id]
      else .fin false false

/-- Final situation of a run of the STT reader. -/
inductive SttRun where
  | running (draining flushClosed : Bool)
  | finished (closedChan ok : Bool)
  | panicked
deriving DecidableEq

/-- Run the STT reader over an inbound event trace: forwarded messages
(in order) and how the loop ended. -/
def sttReaderRun (draining flushClosed : Bool) :
    List WsEvent → List Message × SttRun
  | [] => ([], .running draining flushClosed)
  | ev :: evs =>
    match sttReaderStep draining flushClosed ev with
    | .cont d2 fc2 out =>
      let r := sttReaderRun d2 fc2 evs
      (out ++ r.1, r.2)
    | .fin closed ok => ([], .finished closed ok)
    | .panicked => ([], .panicked)

/-- Outcome of one iteration of the TTS reader loop. -/
inductive TtsStep where
  | cont (out : List Message)
  | fin (closedChan ok : Bool)
deriving DecidableEq

/-- One iteration of the current TTS reader loop (the `MessagePack`-era
`TTSConnection.reader`, the version whose connection type matches
stt.go and msgpack.go): only the Text and Audio discriminators are
dispatched; every other discriminator — Ready included — falls to the
default branch and returns an unexpected-type error. -/
def ttsReaderStep : WsEvent → TtsStep
  | .closeNoStatus => .fin true true
  | .readFail => .fin false false
  | .text _ => .fin false false
  | .binary p =>
    match decodeHeader p with
    | none => .fin false false
    | some (t, _) =>
      if t = nmText then
        match decodeText p with
        | none => .fin false false
        | some (s, _) => .cont [.text s]
      else if t = nmAudio then
        match decodeAudio p with
        | none => .fin false false
        | some (pcm, _) => .cont [.audio pcm]
      else .fin false false

/-!
## Lifecycle coordinator and marker ids
-/

/-- Classified worker/transport errors, as the coordinator observes
them through `errors.Is`. -/
inductive GoErr where
  | canceled
  | deadlineExceeded
  | eof
  | protocolErr
deriving DecidableEq

/-- The test `errors.Is(err, context.Canceled) || errors.Is(err,
context.DeadlineExceeded)` of stt.go:106. -/
def isCancelOrDeadline : GoErr → Bool
  | .canceled => true
  | .deadlineExceeded => true
  | _ => false

/-- Websocket close codes used by `Done`. -/
inductive CloseCode where
  | normalClosure
  | goingAway
  | internalError
deriving DecidableEq

/-- What `errgroup.Wait` returns: the first non-nil worker result in
completion order. -/
def errgroupWait (results : List (Option GoErr)) : Option GoErr :=
  (results.filterMap id).head?

/-- Outcome of `Done`: the close code used on the transport and the
terminal error returned to the caller. -/
structure DoneOutcome where
  closeCode : CloseCode
  result : Option GoErr
deriving DecidableEq

/-- `STTConnection.Done` (stt.go:103-119) as a function of the
aggregated worker error and of the error returned by the
normal-closure `Close` call: a non-nil worker error selects going-away
or internal-error and is returned as-is; a nil worker error closes
normally, suppressing an `io.EOF` from the close. -/
def Done (waitErr closeErr : Option GoErr) : DoneOutcome :=
  match waitErr with
  | some e =>
    { closeCode := if isCancelOrDeadline e then .goingAway else .internalError
      result := some e }
  | none =>
    { closeCode := .normalClosure
      result :=
        match closeErr with
        | some .eof => none
        | ce => ce }

/-- Definition following the words of the specification (for
comparison with the code): the first worker error, in completion
order, that does not indicate cancellation or deadline expiry. -/
def specFirstNonCancellationError (results : List (Option GoErr)) : Option GoErr :=
  (results.filterMap id).find? (fun e => !isCancelOrDeadline e)

/-- `STTConnection.SendMarker` (stt.go:87-97): the id returned by the
call made after `k` earlier calls on the connection —
`markerIDsGen.Add(1)` on an `atomic.Int64` counter starting at 0, so
the value is `k + 1` wrapped to a signed 64-bit integer. -/
def sendMarkerID (k : Nat) : Int := toInt64 ((k + 1) % 18446744073709551616)

/-!
### Round-trip lemmas for the codec
-/

theorem toBE_length (w : Nat) : ∀ n, (toBE w n).length = w := by
  induction w with
  | zero => intro n; rfl
  | succ w ih => intro n; simp [toBE, ih]

theorem fromBE_append (xs : Bytes) (b : Nat) : fromBE (xs ++ [b]) = fromBE xs * 256 + b := by
  simp [fromBE, List.foldl_append]

theorem fromBE_toBE (w : Nat) : ∀ n, n < 256 ^ w → fromBE (toBE w n) = n := by
  induction w with
  | zero =>
    intro n h
    simp only [pow_zero, Nat.lt_one_iff] at h
    simp [toBE, fromBE, h]
  | succ w ih =>
    intro n h
    have hdiv : n / 256 < 256 ^ w := by
      rw [pow_succ, mul_comm] at h
      exact Nat.div_lt_of_lt_mul h
    simp only [toBE, fromBE_append, ih (n / 256) hdiv]
    omega

theorem readN_exact (xs rest : Bytes) : readN xs.length (xs ++ rest) = some (xs, rest) := by
  unfold readN
  rw [if_pos (by simp)]
  simp

theorem readBE_enc (w n : Nat) (rest : Bytes) (h : n < 256 ^ w) :
    readBE w (toBE w n ++ rest) = some (n, rest) := by
  have h1 : readN w (toBE w n ++ rest) = some (toBE w n, rest) := by
    have h2 := readN_exact (toBE w n) rest
    rwa [toBE_length] at h2
  unfold readBE
  rw [h1]
  simp [fromBE_toBE w n h]

theorem readStr_enc (s rest : Bytes) (h : s.length < 4294967296) :
    readStr (encStr s ++ rest) = some (s, rest) := by
  have hb : s.length < 256 ^ 4 := by norm_num [h]
  simp only [encStr, List.cons_append, List.append_assoc, readStr]
  rw [readBE_enc 4 s.length (s ++ rest) hb]
  simp [readN_exact]

theorem toInt64_emod (i : Int) (h : wfInt64 i) :
    toInt64 (i.emod 18446744073709551616).toNat = i := by
  obtain ⟨h1, h2⟩ := h
  have h0 : (0 : Int) ≤ i.emod 18446744073709551616 :=
    Int.emod_nonneg i (by norm_num)
  have h3 : i.emod 18446744073709551616 < 18446744073709551616 :=
    Int.emod_lt_of_pos i (by norm_num)
  have h5 : ∃ q : Int, i.emod 18446744073709551616 = i - 18446744073709551616 * q :=
    ⟨i.ediv 18446744073709551616, Int.emod_def i 18446744073709551616⟩
  obtain ⟨q, h5⟩ := h5
  rw [h5] at h0 h3 ⊢
  have h4 : (↑(i - 18446744073709551616 * q).toNat : Int) = i - 18446744073709551616 * q :=
    Int.toNat_of_nonneg h0
  unfold toInt64
  generalize hg : (i - 18446744073709551616 * q).toNat = n at h4 ⊢
  split <;> omega

theorem emod64_toNat_lt (i : Int) : (i.emod 18446744073709551616).toNat < 256 ^ 8 := by
  have h0 : (0 : Int) ≤ i.emod 18446744073709551616 :=
    Int.emod_nonneg i (by norm_num)
  have h3 : i.emod 18446744073709551616 < 18446744073709551616 :=
    Int.emod_lt_of_pos i (by norm_num)
  norm_num
  omega

theorem readInt_enc (i : Int) (rest : Bytes) (h : wfInt64 i) :
    readInt (encInt i ++ rest) = some (i, rest) := by
  simp only [encInt, List.cons_append, readInt]
  rw [readBE_enc 8 _ rest (emod64_toNat_lt i)]
  simp [toInt64_emod i h]

theorem flatten_map_toBE4_length (xs : List Nat) :
    ((xs.map (toBE 4)).flatten).length = 4 * xs.length := by
  induction xs with
  | nil => simp
  | cons x xs ih =>
    simp [ih, toBE_length]
    omega

theorem readF32Elems_enc (rest : Bytes) :
    ∀ xs : List Nat, (∀ x ∈ xs, x < 4294967296) →
      readF32Elems xs.length ((xs.map (toBE 4)).flatten ++ rest) = some (xs, rest) := by
  intro xs
  induction xs with
  | nil => intro _; simp [readF32Elems]
  | cons x xs ih =>
    intro h
    have hx : x < 256 ^ 4 := by norm_num [h x (by simp)]
    simp only [List.map_cons, List.flatten_cons, List.append_assoc, List.length_cons,
      readF32Elems]
    rw [readBE_enc 4 x _ hx]
    simp [ih (fun y hy => h y (List.mem_cons_of_mem _ hy))]

theorem readF32s_enc (xs : List Nat) (rest : Bytes) (h : wfF32s xs) :
    readF32s (encF32s xs ++ rest) = some (xs, rest) := by
  obtain ⟨h1, h2⟩ := h
  have hb : xs.length < 256 ^ 4 := by norm_num [h1]
  simp only [encF32s, List.cons_append, List.append_assoc, readF32s]
  rw [readBE_enc 4 xs.length _ hb]
  simp [readF32Elems_enc rest xs h2]

theorem readF64_enc (x : Nat) (rest : Bytes) (h : wfF64 x) :
    readF64 (encF64 x ++ rest) = some (x, rest) := by
  have hb : x < 256 ^ 8 := by norm_num; exact h
  simp only [encF64, List.cons_append, readF64]
  exact readBE_enc 8 x rest hb

theorem skipVal_encStr (s rest : Bytes) (h : s.length < 4294967296) :
    skipVal (encStr s ++ rest) = some rest := by
  have hb : s.length < 256 ^ 4 := by norm_num [h]
  simp only [encStr, List.cons_append, List.append_assoc, skipVal]
  rw [readBE_enc 4 s.length (s ++ rest) hb]
  simp [readN_exact]

theorem skipVal_encInt (i : Int) (rest : Bytes) : skipVal (encInt i ++ rest) = some rest := by
  have h1 : readN 8 (toBE 8 (i.emod 18446744073709551616).toNat ++ rest) =
      some (toBE 8 (i.emod 18446744073709551616).toNat, rest) := by
    have h2 := readN_exact (toBE 8 (i.emod 18446744073709551616).toNat) rest
    rwa [toBE_length] at h2
  simp only [encInt, List.cons_append, skipVal]
  rw [h1]
  rfl

theorem skipVal_encF32s (xs : List Nat) (rest : Bytes) (h : xs.length < 4294967296) :
    skipVal (encF32s xs ++ rest) = some rest := by
  have hb : xs.length < 256 ^ 4 := by norm_num [h]
  have h1 : readN (4 * xs.length) ((xs.map (toBE 4)).flatten ++ rest) =
      some ((xs.map (toBE 4)).flatten, rest) := by
    have h2 := readN_exact ((xs.map (toBE 4)).flatten) rest
    rwa [flatten_map_toBE4_length] at h2
  simp only [encF32s, List.cons_append, List.append_assoc, skipVal]
  rw [readBE_enc 4 xs.length _ hb]
  simp [h1]

theorem skipVal_encF64 (x : Nat) (rest : Bytes) : skipVal (encF64 x ++ rest) = some rest := by
  have h1 : readN 8 (toBE 8 x ++ rest) = some (toBE 8 x, rest) := by
    have h2 := readN_exact (toBE 8 x) rest
    rwa [toBE_length] at h2
  simp only [encF64, List.cons_append, skipVal]
  rw [h1]
  rfl

theorem readKey_enc (k v : Bytes) : readKey (encKey k ++ v) = some (k, v) := by
  simp only [encKey, List.cons_append, readKey]
  exact readN_exact k v

theorem readKeyed_enc {α : Type} (key v rest : Bytes) (val : Bytes → Option (α × Bytes)) :
    readKeyed key val (encField key v ++ rest) = val (v ++ rest) := by
  simp only [readKeyed, encField, List.append_assoc]
  rw [readKey_enc]
  simp

theorem skipFields_field (n : Nat) (k v rest : Bytes)
    (hv : skipVal (v ++ rest) = some rest) :
    skipFields (n + 1) (encField k v ++ rest) = skipFields n rest := by
  simp only [skipFields, encField, List.append_assoc]
  rw [readKey_enc]
  simp [hv]

theorem readKey_field (k v rest : Bytes) : readKey (encField k v ++ rest) = some (k, v ++ rest) := by
  have h := readKey_enc k (v ++ rest)
  simpa [encField, List.append_assoc] using h

theorem decodeHeader_ready (rest : Bytes) :
    decodeHeader (encodeMessage .ready ++ rest) = some (nmReady, rest) := by
  have e2 := readStr_enc nmReady rest (by decide)
  have e4 : skipFields 0 rest = some rest := rfl
  simp [encodeMessage, decodeHeader, readKey_field, e2, e4]

theorem decodeHeader_text (s rest : Bytes) (hs : s.length < 4294967296) :
    decodeHeader (encodeMessage (.text s) ++ rest) = some (nmText, rest) := by
  have e2 := readStr_enc nmText (encField keyText (encStr s) ++ rest) (by decide)
  have e3 : skipFields 1 (encField keyText (encStr s) ++ rest) = skipFields 0 rest :=
    skipFields_field 0 keyText (encStr s) rest (skipVal_encStr s rest hs)
  have e4 : skipFields 0 rest = some rest := rfl
  simp [encodeMessage, decodeHeader, readKey_field, e2, e3, e4]

theorem decodeHeader_audio (pcm : List Nat) (rest : Bytes) (hp : pcm.length < 4294967296) :
    decodeHeader (encodeMessage (.audio pcm) ++ rest) = some (nmAudio, rest) := by
  have e2 := readStr_enc nmAudio (encField keyPcm (encF32s pcm) ++ rest) (by decide)
  have e3 : skipFields 1 (encField keyPcm (encF32s pcm) ++ rest) = skipFields 0 rest :=
    skipFields_field 0 keyPcm (encF32s pcm) rest (skipVal_encF32s pcm rest hp)
  have e4 : skipFields 0 rest = some rest := rfl
  simp [encodeMessage, decodeHeader, readKey_field, e2, e3, e4]

theorem decodeHeader_marker (id : Int) (rest : Bytes) :
    decodeHeader (encodeMessage (.marker id) ++ rest) = some (nmMarker, rest) := by
  have e2 := readStr_enc nmMarker (encField keyId (encInt id) ++ rest) (by decide)
  have e3 : skipFields 1 (encField keyId (encInt id) ++ rest) = skipFields 0 rest :=
    skipFields_field 0 keyId (encInt id) rest (skipVal_encInt id rest)
  have e4 : skipFields 0 rest = some rest := rfl
  simp [encodeMessage, decodeHeader, readKey_field, e2, e3, e4]

theorem decodeHeader_step (prs : List Nat) (si bp : Int) (rest : Bytes)
    (hp : prs.length < 4294967296) :
    decodeHeader (encodeMessage (.step prs si bp) ++ rest) = some (nmStep, rest) := by
  have e2 := readStr_enc nmStep (encField keyPrs (encF32s prs) ++
    (encField keyStepIdx (encInt si) ++ (encField keyBufferedPcm (encInt bp) ++ rest)))
    (by decide)
  have e3 : skipFields 3 (encField keyPrs (encF32s prs) ++
      (encField keyStepIdx (encInt si) ++ (encField keyBufferedPcm (encInt bp) ++ rest))) =
      skipFields 2 (encField keyStepIdx (encInt si) ++
        (encField keyBufferedPcm (encInt bp) ++ rest)) :=
    skipFields_field 2 keyPrs (encF32s prs) _ (skipVal_encF32s prs _ hp)
  have e4 : skipFields 2 (encField keyStepIdx (encInt si) ++
      (encField keyBufferedPcm (encInt bp) ++ rest)) =
      skipFields 1 (encField keyBufferedPcm (encInt bp) ++ rest) :=
    skipFields_field 1 keyStepIdx (encInt si) _ (skipVal_encInt si _)
  have e5 : skipFields 1 (encField keyBufferedPcm (encInt bp) ++ rest) = skipFields 0 rest :=
    skipFields_field 0 keyBufferedPcm (encInt bp) rest (skipVal_encInt bp rest)
  have e6 : skipFields 0 rest = some rest := rfl
  simp [encodeMessage, decodeHeader, readKey_field, e2, e3, e4, e5, e6]

theorem decodeHeader_word (t : Bytes) (st : Nat) (rest : Bytes) (ht : t.length < 4294967296) :
    decodeHeader (encodeMessage (.word t st) ++ rest) = some (nmWord, rest) := by
  have e2 := readStr_enc nmWord (encField keyText (encStr t) ++
    (encField keyStartTime (encF64 st) ++ rest)) (by decide)
  have e3 : skipFields 2 (encField keyText (encStr t) ++
      (encField keyStartTime (encF64 st) ++ rest)) =
      skipFields 1 (encField keyStartTime (encF64 st) ++ rest) :=
    skipFields_field 1 keyText (encStr t) _ (skipVal_encStr t _ ht)
  have e4 : skipFields 1 (encField keyStartTime (encF64 st) ++ rest) = skipFields 0 rest :=
    skipFields_field 0 keyStartTime (encF64 st) rest (skipVal_encF64 st rest)
  have e5 : skipFields 0 rest = some rest := rfl
  simp [encodeMessage, decodeHeader, readKey_field, e2, e3, e4, e5]

theorem decodeHeader_wordEnd (sp : Nat) (rest : Bytes) :
    decodeHeader (encodeMessage (.wordEnd sp) ++ rest) = some (nmEndWord, rest) := by
  have e2 := readStr_enc nmEndWord (encField keyStopTime (encF64 sp) ++ rest) (by decide)
  have e3 : skipFields 1 (encField keyStopTime (encF64 sp) ++ rest) = skipFields 0 rest :=
    skipFields_field 0 keyStopTime (encF64 sp) rest (skipVal_encF64 sp rest)
  have e4 : skipFields 0 rest = some rest := rfl
  simp [encodeMessage, decodeHeader, readKey_field, e2, e3, e4]

theorem decodeText_enc (s rest : Bytes) (hs : s.length < 4294967296) :
    decodeText (encodeMessage (.text s) ++ rest) = some (s, rest) := by
  have e1 := readKeyed_enc keyType (encStr nmText) (encField keyText (encStr s) ++ rest) readStr
  have e2 := readStr_enc nmText (encField keyText (encStr s) ++ rest) (by decide)
  have e3 := readKeyed_enc keyText (encStr s) rest readStr
  have e4 := readStr_enc s rest hs
  simp [encodeMessage, decodeText, e1, e2, e3, e4]

theorem decodeAudio_enc (pcm : List Nat) (rest : Bytes) (hp : wfF32s pcm) :
    decodeAudio (encodeMessage (.audio pcm) ++ rest) = some (pcm, rest) := by
  have e1 := readKeyed_enc keyType (encStr nmAudio) (encField keyPcm (encF32s pcm) ++ rest) readStr
  have e2 := readStr_enc nmAudio (encField keyPcm (encF32s pcm) ++ rest) (by decide)
  have e3 := readKeyed_enc keyPcm (encF32s pcm) rest readF32s
  have e4 := readF32s_enc pcm rest hp
  simp [encodeMessage, decodeAudio, e1, e2, e3, e4]

theorem decodeMarker_enc (id : Int) (rest : Bytes) (hi : wfInt64 id) :
    decodeMarker (encodeMessage (.marker id) ++ rest) = some (id, rest) := by
  have e1 := readKeyed_enc keyType (encStr nmMarker) (encField keyId (encInt id) ++ rest) readStr
  have e2 := readStr_enc nmMarker (encField keyId (encInt id) ++ rest) (by decide)
  have e3 := readKeyed_enc keyId (encInt id) rest readInt
  have e4 := readInt_enc id rest hi
  simp [encodeMessage, decodeMarker, e1, e2, e3, e4]

theorem decodeStep_enc (prs : List Nat) (si bp : Int) (rest : Bytes)
    (hp : wfF32s prs) (hsi : wfInt64 si) (hbp : wfInt64 bp) :
    decodeStep (encodeMessage (.step prs si bp) ++ rest) = some ((prs, si, bp), rest) := by
  have e1 := readKeyed_enc keyType (encStr nmStep) (encField keyPrs (encF32s prs) ++
    (encField keyStepIdx (encInt si) ++ (encField keyBufferedPcm (encInt bp) ++ rest))) readStr
  have e2 := readStr_enc nmStep (encField keyPrs (encF32s prs) ++
    (encField keyStepIdx (encInt si) ++ (encField keyBufferedPcm (encInt bp) ++ rest)))
    (by decide)
  have e3 := readKeyed_enc keyPrs (encF32s prs)
    (encField keyStepIdx (encInt si) ++ (encField keyBufferedPcm (encInt bp) ++ rest)) readF32s
  have e4 := readF32s_enc prs (encField keyStepIdx (encInt si) ++
    (encField keyBufferedPcm (encInt bp) ++ rest)) hp
  have e5 := readKeyed_enc keyStepIdx (encInt si)
    (encField keyBufferedPcm (encInt bp) ++ rest) readInt
  have e6 := readInt_enc si (encField keyBufferedPcm (encInt bp) ++ rest) hsi
  have e7 := readKeyed_enc keyBufferedPcm (encInt bp) rest readInt
  have e8 := readInt_enc bp rest hbp
  simp [encodeMessage, decodeStep, e1, e2, e3, e4, e5, e6, e7, e8]

theorem decodeWord_enc (t : Bytes) (st : Nat) (rest : Bytes)
    (ht : t.length < 4294967296) (hst : wfF64 st) :
    decodeWord (encodeMessage (.word t st) ++ rest) = some ((t, st), rest) := by
  have e1 := readKeyed_enc keyType (encStr nmWord) (encField keyText (encStr t) ++
    (encField keyStartTime (encF64 st) ++ rest)) readStr
  have e2 := readStr_enc nmWord (encField keyText (encStr t) ++
    (encField keyStartTime (encF64 st) ++ rest)) (by decide)
  have e3 := readKeyed_enc keyText (encStr t) (encField keyStartTime (encF64 st) ++ rest) readStr
  have e4 := readStr_enc t (encField keyStartTime (encF64 st) ++ rest) ht
  have e5 := readKeyed_enc keyStartTime (encF64 st) rest readF64
  have e6 := readF64_enc st rest hst
  simp [encodeMessage, decodeWord, e1, e2, e3, e4, e5, e6]

theorem decodeWordEnd_enc (sp : Nat) (rest : Bytes) (hsp : wfF64 sp) :
    decodeWordEnd (encodeMessage (.wordEnd sp) ++ rest) = some (sp, rest) := by
  have e1 := readKeyed_enc keyType (encStr nmEndWord)
    (encField keyStopTime (encF64 sp) ++ rest) readStr
  have e2 := readStr_enc nmEndWord (encField keyStopTime (encF64 sp) ++ rest) (by decide)
  have e3 := readKeyed_enc keyStopTime (encF64 sp) rest readF64
  have e4 := readF64_enc sp rest hsp
  simp [encodeMessage, decodeWordEnd, e1, e2, e3, e4]

/-- Claim C4: for every well-formed in-memory message value of every
wire variant (Ready/header, Text, Audio, Marker, Step, Word, WordEnd),
encoding and then decoding yields the same value — and encoding never
fails, `encodeMessage` being a total function. -/
theorem c4_roundtrip (m : Message) (h : wfMessage m) :
    decodeMessage (encodeMessage m) = some m := by
  cases m with
  | ready =>
    have e := decodeHeader_ready []
    rw [List.append_nil] at e
    simp [decodeMessage, e]
  | text s =>
    obtain ⟨hs1, hs2⟩ := h
    have e := decodeHeader_text s [] hs1
    rw [List.append_nil] at e
    have d := decodeText_enc s [] hs1
    rw [List.append_nil] at d
    have n1 : nmText ≠ nmReady := by decide
    simp [decodeMessage, e, d, n1]
  | audio pcm =>
    have hp1 : pcm.length < 4294967296 := h.1
    have e := decodeHeader_audio pcm [] hp1
    rw [List.append_nil] at e
    have d := decodeAudio_enc pcm [] h
    rw [List.append_nil] at d
    have n1 : nmAudio ≠ nmReady := by decide
    have n2 : nmAudio ≠ nmText := by decide
    simp [decodeMessage, e, d, n1, n2]
  | marker id =>
    have e := decodeHeader_marker id []
    rw [List.append_nil] at e
    have d := decodeMarker_enc id [] h
    rw [List.append_nil] at d
    have n1 : nmMarker ≠ nmReady := by decide
    have n2 : nmMarker ≠ nmText := by decide
    have n3 : nmMarker ≠ nmAudio := by decide
    simp [decodeMessage, e, d, n1, n2, n3]
  | step prs si bp =>
    obtain ⟨hp, hsi, hbp⟩ := h
    have e := decodeHeader_step prs si bp [] hp.1
    rw [List.append_nil] at e
    have d := decodeStep_enc prs si bp [] hp hsi hbp
    rw [List.append_nil] at d
    have n1 : nmStep ≠ nmReady := by decide
    have n2 : nmStep ≠ nmText := by decide
    have n3 : nmStep ≠ nmAudio := by decide
    have n4 : nmStep ≠ nmMarker := by decide
    simp [decodeMessage, e, d, n1, n2, n3, n4]
  | word t st =>
    obtain ⟨ht, hst⟩ := h
    have e := decodeHeader_word t st [] ht.1
    rw [List.append_nil] at e
    have d := decodeWord_enc t st [] ht.1 hst
    rw [List.append_nil] at d
    have n1 : nmWord ≠ nmReady := by decide
    have n2 : nmWord ≠ nmText := by decide
    have n3 : nmWord ≠ nmAudio := by decide
    have n4 : nmWord ≠ nmMarker := by decide
    have n5 : nmWord ≠ nmStep := by decide
    simp [decodeMessage, e, d, n1, n2, n3, n4, n5]
  | wordEnd sp =>
    have e := decodeHeader_wordEnd sp []
    rw [List.append_nil] at e
    have d := decodeWordEnd_enc sp [] h
    rw [List.append_nil] at d
    have n1 : nmEndWord ≠ nmReady := by decide
    have n2 : nmEndWord ≠ nmText := by decide
    have n3 : nmEndWord ≠ nmAudio := by decide
    have n4 : nmEndWord ≠ nmMarker := by decide
    have n5 : nmEndWord ≠ nmStep := by decide
    have n6 : nmEndWord ≠ nmWord := by decide
    simp [decodeMessage, e, d, n1, n2, n3, n4, n5, n6]

/-- Witness for `c4_roundtrip`, at a concrete Word message. -/
theorem c4_roundtrip_witness :
    decodeMessage (encodeMessage (.word [104, 105] 77)) = some (.word [104, 105] 77) :=
  c4_roundtrip (.word [104, 105] 77) (by decide)


/-!
## Writer lemmas
-/

theorem emitFull_unfold (fs : Nat) (b : List Sample) :
    emitFull fs b = if 0 < fs ∧ fs ≤ b.length then
      ((b.take fs) :: (emitFull fs (b.drop fs)).1, (emitFull fs (b.drop fs)).2)
    else ([], b) := by
  by_cases h : 0 < fs ∧ fs ≤ b.length
  · rw [emitFull, dif_pos h, if_pos h]
  · rw [emitFull, dif_neg h, if_neg h]

theorem emitFull_spec (fs : Nat) (hfs : 0 < fs) :
    ∀ n, ∀ b : List Sample, b.length ≤ n →
      (∀ f ∈ (emitFull fs b).1, f.length = fs) ∧ (emitFull fs b).2.length < fs := by
  intro n
  induction n with
  | zero =>
    intro b hb
    have hg : ¬(0 < fs ∧ fs ≤ b.length) := by omega
    rw [emitFull_unfold, if_neg hg]
    refine ⟨fun f hf => absurd hf (by simp), ?_⟩
    simp only []
    omega
  | succ n ih =>
    intro b hb
    by_cases hg : 0 < fs ∧ fs ≤ b.length
    · rw [emitFull_unfold, if_pos hg]
      have hd : (b.drop fs).length ≤ n := by
        simp only [List.length_drop]
        omega
      obtain ⟨ih1, ih2⟩ := ih (b.drop fs) hd
      refine ⟨fun f hf => ?_, ih2⟩
      rcases List.mem_cons.mp hf with h1 | h2
      · subst h1
        simp only [List.length_take]
        omega
      · exact ih1 f h2
    · rw [emitFull_unfold, if_neg hg]
      refine ⟨fun f hf => absurd hf (by simp), ?_⟩
      simp only []
      omega

theorem emitFull_frames_length (fs : Nat) (hfs : 0 < fs) (b : List Sample) :
    ∀ f ∈ (emitFull fs b).1, f.length = fs :=
  (emitFull_spec fs hfs b.length b le_rfl).1

theorem emitFull_rest_length (fs : Nat) (hfs : 0 < fs) (b : List Sample) :
    (emitFull fs b).2.length < fs :=
  (emitFull_spec fs hfs b.length b le_rfl).2

theorem flushPad_length (fs : Nat) (b : List Sample) (h : b.length ≤ fs) :
    (flushPad fs b).length = fs := by
  by_cases hc : b.length < fs
  · rw [flushPad, if_pos hc]
    simp only [List.length_append, List.length_replicate]
    omega
  · rw [flushPad, if_neg hc]
    omega

theorem flushIter_fix (fs : Nat) (hfs : 0 < fs) (p : List Sample) (hp : p.length = fs) :
    ∀ n, flushIter fs n p = (List.replicate n p, p) := by
  intro n
  induction n with
  | zero => rfl
  | succ n ih =>
    cases p with
    | nil =>
      simp only [List.length_nil] at hp
      omega
    | cons x xs =>
      have hpad : flushPad fs (x :: xs) = x :: xs := by
        rw [flushPad, if_neg (by omega)]
      simp only [flushIter]
      rw [hpad, ih]
      simp [List.replicate_succ]

theorem flushIter_stuck (fs : Nat) (hfs : 0 < fs) (b : List Sample) (hb : b ≠ [])
    (hlen : b.length ≤ fs) :
    ∀ n, flushIter fs n b =
      (List.replicate n (flushPad fs b), if n = 0 then b else flushPad fs b) := by
  intro n
  cases n with
  | zero => simp [flushIter]
  | succ n =>
    cases b with
    | nil => exact absurd rfl hb
    | cons x xs =>
      have hpadlen : (flushPad fs (x :: xs)).length = fs := flushPad_length fs _ hlen
      simp only [flushIter]
      rw [flushIter_fix fs hfs _ hpadlen n]
      simp [List.replicate_succ]

theorem writerOpenStep_buf (fs : Nat) (hfs : 0 < fs) (buf : Option (List Sample))
    (input : List Sample) : bufInv fs (writerOpenStep fs buf input).2 := by
  rcases hga : goAppend buf input with _ | b
  · simp [writerOpenStep, hga, bufInv]
  · simp [writerOpenStep, hga, bufInv, emitFull_rest_length fs hfs b]

theorem writerOpenStep_frames (fs : Nat) (hfs : 0 < fs) (buf : Option (List Sample))
    (input : List Sample) :
    ∀ f ∈ (writerOpenStep fs buf input).1, f.length = fs ∨ f = oneSecondOfSilence := by
  intro f hf
  cases buf with
  | none =>
    rcases hga : goAppend none input with _ | b
    · simp [writerOpenStep, hga] at hf
      right; exact hf
    · simp [writerOpenStep, hga] at hf
      rcases hf with hf | hf
      · right; exact hf
      · left; exact emitFull_frames_length fs hfs b f hf
  | some b0 =>
    rcases hga : goAppend (some b0) input with _ | b
    · simp [writerOpenStep, hga] at hf
    · simp [writerOpenStep, hga] at hf
      left; exact emitFull_frames_length fs hfs b f hf

theorem writerFeed_frames (fs : Nat) (hfs : 0 < fs) :
    ∀ (batches : List (List Sample)) (buf : Option (List Sample)),
      ∀ f ∈ (writerFeed fs buf batches).1, f.length = fs ∨ f = oneSecondOfSilence := by
  intro batches
  induction batches with
  | nil =>
    intro buf f hf
    simp [writerFeed] at hf
  | cons batch rest ih =>
    intro buf f hf
    simp only [writerFeed, List.mem_append] at hf
    rcases hf with hf | hf
    · exact writerOpenStep_frames fs hfs buf batch f hf
    · exact ih _ f hf

theorem writerFeed_buf (fs : Nat) (hfs : 0 < fs) :
    ∀ (batches : List (List Sample)) (buf : Option (List Sample)), bufInv fs buf →
      bufInv fs (writerFeed fs buf batches).2 := by
  intro batches
  induction batches with
  | nil =>
    intro buf h
    simpa [writerFeed] using h
  | cons batch rest ih =>
    intro buf h
    simp only [writerFeed]
    exact ih _ (writerOpenStep_buf fs hfs buf batch)

theorem writerFeed_from_some_frames (fs : Nat) (hfs : 0 < fs) :
    ∀ (batches : List (List Sample)) (b : List Sample),
      ∀ f ∈ (writerFeed fs (some b) batches).1, f.length = fs := by
  intro batches
  induction batches with
  | nil =>
    intro b f hf
    simp [writerFeed] at hf
  | cons batch rest ih =>
    intro b f hf
    simp only [writerFeed, List.mem_append] at hf
    have hstep : writerOpenStep fs (some b) batch =
        ((emitFull fs (b ++ batch)).1, some (emitFull fs (b ++ batch)).2) := by
      simp [writerOpenStep, goAppend]
    rcases hf with hf | hf
    · rw [hstep] at hf
      exact emitFull_frames_length fs hfs _ f hf
    · rw [hstep] at hf
      exact ih _ f hf

theorem writerFeedEmits_nil_batch (fs : Nat) (bs : List (List Sample)) :
    writerFeedEmits fs ([] :: bs) = oneSecondOfSilence :: writerFeedEmits fs bs := by
  simp [writerFeedEmits, writerFeed, writerOpenStep, goAppend]

theorem writerFeedEmits_cons (fs : Nat) (x : Sample) (b : List Sample)
    (bs : List (List Sample)) :
    writerFeedEmits fs ((x :: b) :: bs) =
      oneSecondOfSilence :: ((emitFull fs (x :: b)).1 ++
        (writerFeed fs (some (emitFull fs (x :: b)).2) bs).1) := by
  simp [writerFeedEmits, writerFeed, writerOpenStep, goAppend]
/-!
## Claim theorems
-/

/-- Claim C1, evaluated at a failing input (code bug): with frame size
2, submit one batch `[5]` and close the write channel.  The feed phase
emits only the primer and leaves the leftover `[5]`; the flush loop
then pads it to `[5, 0]` and — because `buffer = buffer[:]` does not
empty the buffer — re-emits that padded frame on every one of its
iterations, its buffer never emptying, so the leftover partial frame
is not emitted exactly once and the loop never exits. -/
theorem c1_partial_frame_reemitted :
    writerFeed 2 none [[5]] = ([oneSecondOfSilence], some [5]) ∧
    flushPad 2 [5] = [5, 0] ∧
    ∀ n, flushIter 2 n [5] = (List.replicate n [5, 0], if n = 0 then [5] else [5, 0]) ∧
      (flushIter 2 n [5]).2 ≠ [] := by
  refine ⟨?_, ?_, ?_⟩
  · simp [writerFeed, writerOpenStep, goAppend, emitFull]
  · rfl
  · intro n
    have h := flushIter_stuck 2 (by norm_num) [5] (by simp) (by simp) n
    have hpad : flushPad 2 [5] = [5, 0] := rfl
    rw [hpad] at h
    refine ⟨h, ?_⟩
    rw [h]
    by_cases hn : n = 0 <;> simp [hn]

/-- Claim C2, evaluated at a failing input (code bug): with frame size
2, submit one batch `[5]` and close the write channel.  Because the
flush loop never empties its buffer, the writer never reaches the
`Marker`-id-0 send: however many flush iterations and ticker firings
are observed, the socket trace contains no id-0 marker — not exactly
one, as claimed. -/
theorem c2_drain_marker_never_sent :
    ∀ fuel ticks, (writerTrace 2 [[5]] fuel ticks).count (WMsg.marker 0) = 0 := by
  intro fuel ticks
  have hbuf : writerFeedBuf 2 [[5]] = some [5] := by
    simp [writerFeedBuf, writerFeed, writerOpenStep, goAppend, emitFull]
  have hfl := flushIter_stuck 2 (by norm_num) [5] (by simp) (by simp) fuel
  have hpad : flushPad 2 [5] = [5, 0] := rfl
  rw [hpad] at hfl
  by_cases hn : fuel = 0
  · subst hn
    simp [writerTrace, hbuf, writerClose, flushIter, List.count_eq_zero, List.mem_append,
      List.mem_map]
  · simp [writerTrace, hbuf, writerClose, hfl, hn, List.count_eq_zero, List.mem_append,
      List.mem_map]

/-- Claim C3, counterexample: an STT inbound trace consisting of the
echoed id-0 marker followed by a Step with buffered-sample count 0
makes the reader return a nil error WITHOUT closing the caller-facing
event channel (`closedChan = false`), contrary to the claim that the
channel is closed on drain completion. -/
theorem c3_counterexample :
    sttReaderRun false false
      [WsEvent.binary (encodeMessage (.marker 0)),
       WsEvent.binary (encodeMessage (.step [] 5 0))] =
      ([], SttRun.finished false true) := by
  decide

/-- Claim C3 as amended: while draining, a Step with nonzero
buffered-sample count is discarded without being forwarded, and the
first Step with a zero count makes the reader return a nil error —
without closing the caller-facing event channel (the channel is closed
only on graceful websocket closure). -/
theorem c3_amended (prs : List Nat) (si bp : Int) (fc : Bool)
    (hp : wfF32s prs) (hsi : wfInt64 si) (hbp : wfInt64 bp) :
    (bp ≠ 0 → sttReaderStep true fc (WsEvent.binary (encodeMessage (.step prs si bp))) =
      SttStep.cont true fc []) ∧
    (bp = 0 → sttReaderStep true fc (WsEvent.binary (encodeMessage (.step prs si bp))) =
      SttStep.fin false true) := by
  have e := decodeHeader_step prs si bp [] hp.1
  rw [List.append_nil] at e
  have d := decodeStep_enc prs si bp [] hp hsi hbp
  rw [List.append_nil] at d
  have n1 : nmStep ≠ nmReady := by decide
  constructor
  · intro hbz
    simp [sttReaderStep, e, d, n1, hbz]
  · intro hbz
    subst hbz
    simp [sttReaderStep, e, d, n1]

/-- Witness for `c3_amended` at a concrete zero-count Step. -/
theorem c3_amended_witness :
    sttReaderStep true false (WsEvent.binary (encodeMessage (.step [] 5 0))) =
      SttStep.fin false true :=
  (c3_amended [] 5 0 false (by decide) (by decide) (by decide)).2 rfl

/-- Claim C5, counterexample: submitting an empty first batch and then
`[3, 4]` (frame size 2) makes the writer emit the one-second silence
primer twice — the `buffer == nil` test is still true when the second
batch arrives, because appending an empty batch leaves the buffer nil
— so the primer is not emitted exactly once. -/
theorem c5_counterexample :
    (writerFeedEmits 2 [[], [3, 4]]).countP (fun f => f.length == SampleRate) = 2 := by
  have h : writerFeedEmits 2 [[], [3, 4]] = [oneSecondOfSilence, oneSecondOfSilence, [3, 4]] := by
    simp [writerFeedEmits, writerFeed, writerOpenStep, goAppend, emitFull]
  rw [h]
  have h1 : (oneSecondOfSilence.length == SampleRate) = true := by
    simp [oneSecondOfSilence]
  have h2 : (([3, 4] : List Sample).length == SampleRate) = false := by decide
  simp [List.countP_cons, List.countP_nil, h1, h2]
  decide

/-- Claim C5 as amended: the writer emits the one-second silence
primer upon every received batch while no samples have yet been
buffered — once per leading empty batch, and once upon the first
non-empty batch, before any other audio; in particular, when the first
batch is non-empty the primer is emitted exactly once, as the first
Audio message, and no later feed-phase Audio message equals it. -/
theorem c5_amended (fs : Nat) (h1 : 0 < fs) (h2 : fs < SampleRate) :
    (∀ bs, writerFeedEmits fs ([] :: bs) = oneSecondOfSilence :: writerFeedEmits fs bs) ∧
    (∀ (x : Sample) (b : List Sample) (bs : List (List Sample)),
      ∃ rest, writerFeedEmits fs ((x :: b) :: bs) = oneSecondOfSilence :: rest ∧
        (∀ f ∈ rest, f.length = fs) ∧ ∀ f ∈ rest, f ≠ oneSecondOfSilence) := by
  constructor
  · intro bs
    exact writerFeedEmits_nil_batch fs bs
  · intro x b bs
    refine ⟨_, writerFeedEmits_cons fs x b bs, fun f hf => ?_, fun f hf => ?_⟩
    · rcases List.mem_append.mp hf with hf | hf
      · exact emitFull_frames_length fs h1 _ f hf
      · exact writerFeed_from_some_frames fs h1 bs _ f hf
    · have hl : f.length = fs := by
        rcases List.mem_append.mp hf with hf | hf
        · exact emitFull_frames_length fs h1 _ f hf
        · exact writerFeed_from_some_frames fs h1 bs _ f hf
      intro hc
      rw [hc] at hl
      simp [oneSecondOfSilence] at hl
      omega

/-- Witness for `c5_amended` at a leading empty batch. -/
theorem c5_amended_witness :
    writerFeedEmits 2 ([] :: [[3, 4]]) = oneSecondOfSilence :: writerFeedEmits 2 [[3, 4]] :=
  (c5_amended 2 (by norm_num) (by norm_num [SampleRate])).1 [[3, 4]]

/-- Claim C6, counterexample: the marker-id counter is a wrapping
signed 64-bit `atomic.Int64`.  The first call does return 1, but the
call made after 2^63 - 1 earlier calls returns -2^63 — smaller than
every earlier id, not strictly greater — and the call made after
2^64 - 1 earlier calls returns the reserved id 0. -/
theorem c6_counterexample :
    sendMarkerID 0 = 1 ∧
    sendMarkerID 9223372036854775807 < sendMarkerID 0 ∧
    sendMarkerID 18446744073709551615 = 0 := by
  refine ⟨?_, ?_, ?_⟩ <;> decide

/-- Claim C6 as amended: while fewer than 2^63 - 1 calls have been
made, `SendMarker` returns exactly the number of calls so far — the
ids start at 1, are strictly increasing, and are never the reserved
id 0; the wraparound violations require at least 2^63 calls. -/
theorem c6_amended (k : Nat) (hk : k + 1 < 9223372036854775808) :
    sendMarkerID k = (k : Int) + 1 ∧ sendMarkerID k ≠ 0 ∧
      ∀ j, j < k → sendMarkerID j < sendMarkerID k := by
  have formula : ∀ m : Nat, m + 1 < 9223372036854775808 → sendMarkerID m = (m : Int) + 1 := by
    intro m hm
    unfold sendMarkerID toInt64
    rw [Nat.mod_eq_of_lt (by omega), if_pos (by omega)]
    push_cast
    ring
  have hf := formula k hk
  refine ⟨hf, ?_, ?_⟩
  · rw [hf]
    omega
  · intro j hj
    rw [hf, formula j (by omega)]
    omega

/-- Witness for `c6_amended` at the third call. -/
theorem c6_amended_witness :
    sendMarkerID 2 = (2 : Int) + 1 ∧ sendMarkerID 2 ≠ 0 ∧
      ∀ j, j < 2 → sendMarkerID j < sendMarkerID 2 :=
  c6_amended 2 (by norm_num)

/-- Claim C7, counterexample: when the first worker error in
completion order is a cancellation and a later worker error is not,
`Done` returns the cancellation error — not the first non-cancellation
worker error, as claimed. -/
theorem c7_counterexample :
    (Done (errgroupWait [some GoErr.canceled, some GoErr.protocolErr]) none).result =
      some GoErr.canceled ∧
    specFirstNonCancellationError [some GoErr.canceled, some GoErr.protocolErr] =
      some GoErr.protocolErr ∧
    GoErr.canceled ≠ GoErr.protocolErr := by
  refine ⟨?_, ?_, ?_⟩ <;> decide

/-- Claim C7 as amended: `Done` returns the FIRST worker error in
completion order, whatever its kind (a cancellation error included),
closing with going-away on cancellation/deadline errors, internal
error on any other error, and normal closure when both workers
returned nil — in which case an `io.EOF` from the close call is
suppressed and any other close error is returned. -/
theorem c7_amended (ws : List (Option GoErr)) (closeErr : Option GoErr) :
    ((errgroupWait ws).isSome →
      (Done (errgroupWait ws) closeErr).result = errgroupWait ws) ∧
    (∀ e, errgroupWait ws = some e → isCancelOrDeadline e = true →
      (Done (errgroupWait ws) closeErr).closeCode = CloseCode.goingAway) ∧
    (∀ e, errgroupWait ws = some e → isCancelOrDeadline e = false →
      (Done (errgroupWait ws) closeErr).closeCode = CloseCode.internalError) ∧
    (errgroupWait ws = none →
      (Done (errgroupWait ws) closeErr).closeCode = CloseCode.normalClosure) ∧
    (errgroupWait ws = none → closeErr = some GoErr.eof →
      (Done (errgroupWait ws) closeErr).result = none) ∧
    (errgroupWait ws = none → closeErr ≠ some GoErr.eof →
      (Done (errgroupWait ws) closeErr).result = closeErr) := by
  refine ⟨?_, ?_, ?_, ?_, ?_, ?_⟩
  · intro h
    rcases he : errgroupWait ws with _ | e
    · rw [he] at h
      simp at h
    · simp [Done]
  · intro e he hc
    rw [he]
    simp [Done, hc]
  · intro e he hc
    rw [he]
    simp [Done, hc]
  · intro he
    rw [he]
    simp [Done]
  · intro he hce
    rw [he, hce]
    simp [Done]
  · intro he hce
    rw [he]
    cases closeErr with
    | none => simp [Done]
    | some e2 => cases e2 <;> simp_all [Done]

/-- Witness for `c7_amended`: a lone protocol error is returned as the
terminal result. -/
theorem c7_amended_witness :
    (Done (errgroupWait [some GoErr.protocolErr]) none).result =
      errgroupWait [some GoErr.protocolErr] :=
  (c7_amended [some GoErr.protocolErr] none).1 (by decide)

/-- Claim C8, evaluated at the failing input (code bug): the current
TTS reader dispatches only the Text and Audio discriminators, so a
received Ready message falls to the default branch and aborts the
connection with an unexpected-type error instead of being forwarded —
contradicting msgpack.go's own comment that Ready can be received by
the reader channel. -/
theorem c8_ready_rejected :
    ttsReaderStep (WsEvent.binary (encodeMessage .ready)) = TtsStep.fin false false := by
  decide

/-- Claim C9, counterexample: a payload holding a complete Marker
variant followed by one trailing byte is accepted by the STT reader —
the decoded marker is forwarded and the connection continues — whereas
the claim says trailing bytes make decoding fail and abort the
connection. -/
theorem c9_counterexample :
    sttReaderStep false false (WsEvent.binary (encodeMessage (.marker 7) ++ [0])) =
      SttStep.cont false false [.marker 7] := by
  decide

/-- Claim C9 as amended: a binary payload aborts the STT connection
with a decode error when its header does not decode, when its
discriminator is not one of the recognised ones, or when the
recognised variant's shape does not decode; but trailing bytes after a
complete variant are ignored (the `leftover` result of the
deserializer is discarded), the decoded value being processed as if
the payload were exact. -/
theorem c9_amended :
    (∀ (d fc : Bool) (p : Bytes), decodeHeader p = none →
      sttReaderStep d fc (WsEvent.binary p) = SttStep.fin false false) ∧
    (∀ (d fc : Bool) (p : Bytes) (t r : Bytes), decodeHeader p = some (t, r) →
      t ∉ [nmReady, nmStep, nmWord, nmEndWord, nmMarker] →
      sttReaderStep d fc (WsEvent.binary p) = SttStep.fin false false) ∧
    (∀ (d fc : Bool) (p r : Bytes),
      (decodeHeader p = some (nmStep, r) → decodeStep p = none →
        sttReaderStep d fc (WsEvent.binary p) = SttStep.fin false false) ∧
      (decodeHeader p = some (nmWord, r) → decodeWord p = none →
        sttReaderStep d fc (WsEvent.binary p) = SttStep.fin false false) ∧
      (decodeHeader p = some (nmEndWord, r) → decodeWordEnd p = none →
        sttReaderStep d fc (WsEvent.binary p) = SttStep.fin false false) ∧
      (decodeHeader p = some (nmMarker, r) → decodeMarker p = none →
        sttReaderStep d fc (WsEvent.binary p) = SttStep.fin false false)) ∧
    (∀ (d fc : Bool) (m : Message) (junk : Bytes), wfMessage m →
      sttReaderStep d fc (WsEvent.binary (encodeMessage m ++ junk)) =
        sttReaderStep d fc (WsEvent.binary (encodeMessage m))) := by
  refine ⟨?_, ?_, ?_, ?_⟩
  · intro d fc p hp
    simp [sttReaderStep, hp]
  · intro d fc p t r hp hmem
    simp only [List.mem_cons, List.mem_singleton, not_or] at hmem
    obtain ⟨m1, m2, m3, m4, m5⟩ := hmem
    simp [sttReaderStep, hp, m1, m2, m3, m4, m5]
  · intro d fc p r
    have n1 : nmStep ≠ nmReady := by decide
    have n2 : nmWord ≠ nmReady := by decide
    have n3 : nmWord ≠ nmStep := by decide
    have n4 : nmEndWord ≠ nmReady := by decide
    have n5 : nmEndWord ≠ nmStep := by decide
    have n6 : nmEndWord ≠ nmWord := by decide
    have n7 : nmMarker ≠ nmReady := by decide
    have n8 : nmMarker ≠ nmStep := by decide
    have n9 : nmMarker ≠ nmWord := by decide
    have n10 : nmMarker ≠ nmEndWord := by decide
    refine ⟨fun hp hv => ?_, fun hp hv => ?_, fun hp hv => ?_, fun hp hv => ?_⟩
    · simp [sttReaderStep, hp, hv, n1]
    · simp [sttReaderStep, hp, hv, n2, n3]
    · simp [sttReaderStep, hp, hv, n4, n5, n6]
    · simp [sttReaderStep, hp, hv, n7, n8, n9, n10]
  · intro d fc m junk h
    cases m with
    | ready =>
      have e1 := decodeHeader_ready junk
      have e2 := decodeHeader_ready []
      rw [List.append_nil] at e2
      simp [sttReaderStep, e1, e2]
    | text s =>
      obtain ⟨hs1, _⟩ := h
      have e1 := decodeHeader_text s junk hs1
      have e2 := decodeHeader_text s [] hs1
      rw [List.append_nil] at e2
      have n1 : nmText ≠ nmReady := by decide
      have n2 : nmText ≠ nmStep := by decide
      have n3 : nmText ≠ nmWord := by decide
      have n4 : nmText ≠ nmEndWord := by decide
      have n5 : nmText ≠ nmMarker := by decide
      simp [sttReaderStep, e1, e2, n1, n2, n3, n4, n5]
    | audio pcm =>
      have hp1 : pcm.length < 4294967296 := h.1
      have e1 := decodeHeader_audio pcm junk hp1
      have e2 := decodeHeader_audio pcm [] hp1
      rw [List.append_nil] at e2
      have n1 : nmAudio ≠ nmReady := by decide
      have n2 : nmAudio ≠ nmStep := by decide
      have n3 : nmAudio ≠ nmWord := by decide
      have n4 : nmAudio ≠ nmEndWord := by decide
      have n5 : nmAudio ≠ nmMarker := by decide
      simp [sttReaderStep, e1, e2, n1, n2, n3, n4, n5]
    | marker id =>
      have e1 := decodeHeader_marker id junk
      have e2 := decodeHeader_marker id []
      rw [List.append_nil] at e2
      have d1 := decodeMarker_enc id junk h
      have d2 := decodeMarker_enc id [] h
      rw [List.append_nil] at d2
      have n1 : nmMarker ≠ nmReady := by decide
      have n2 : nmMarker ≠ nmStep := by decide
      have n3 : nmMarker ≠ nmWord := by decide
      have n4 : nmMarker ≠ nmEndWord := by decide
      simp [sttReaderStep, e1, e2, d1, d2, n1, n2, n3, n4]
    | step prs si bp =>
      obtain ⟨hp, hsi, hbp⟩ := h
      have e1 := decodeHeader_step prs si bp junk hp.1
      have e2 := decodeHeader_step prs si bp [] hp.1
      rw [List.append_nil] at e2
      have d1 := decodeStep_enc prs si bp junk hp hsi hbp
      have d2 := decodeStep_enc prs si bp [] hp hsi hbp
      rw [List.append_nil] at d2
      have n1 : nmStep ≠ nmReady := by decide
      simp [sttReaderStep, e1, e2, d1, d2, n1]
    | word t st =>
      obtain ⟨ht, hst⟩ := h
      have e1 := decodeHeader_word t st junk ht.1
      have e2 := decodeHeader_word t st [] ht.1
      rw [List.append_nil] at e2
      have d1 := decodeWord_enc t st junk ht.1 hst
      have d2 := decodeWord_enc t st [] ht.1 hst
      rw [List.append_nil] at d2
      have n1 : nmWord ≠ nmReady := by decide
      have n2 : nmWord ≠ nmStep := by decide
      simp [sttReaderStep, e1, e2, d1, d2, n1, n2]
    | wordEnd sp =>
      have e1 := decodeHeader_wordEnd sp junk
      have e2 := decodeHeader_wordEnd sp []
      rw [List.append_nil] at e2
      have d1 := decodeWordEnd_enc sp junk h
      have d2 := decodeWordEnd_enc sp [] h
      rw [List.append_nil] at d2
      have n1 : nmEndWord ≠ nmReady := by decide
      have n2 : nmEndWord ≠ nmStep := by decide
      have n3 : nmEndWord ≠ nmWord := by decide
      simp [sttReaderStep, e1, e2, d1, d2, n1, n2, n3]

/-- Witness for `c9_amended`: a concrete Step payload with two
trailing bytes is processed exactly as the same payload without
them. -/
theorem c9_amended_witness :
    sttReaderStep false false (WsEvent.binary (encodeMessage (.step [1] 4 2) ++ [9, 9])) =
      sttReaderStep false false (WsEvent.binary (encodeMessage (.step [1] 4 2))) :=
  c9_amended.2.2.2 false false (.step [1] 4 2) [9, 9] (by decide)
theorem flushIter_nil (fs fuel : Nat) : flushIter fs fuel [] = ([], []) := by
  cases fuel <;> rfl

theorem writerClose_audio (fs : Nat) (hfs : 0 < fs) (buf : Option (List Sample))
    (hb : bufInv fs buf) (fuel ticks : Nat) :
    ∀ pcm, WMsg.audio pcm ∈ writerClose fs buf fuel ticks →
      pcm.length = fs ∨ pcm.length = SampleRate := by
  intro pcm hm
  have hble : (buf.getD []).length ≤ fs := by
    cases buf with
    | none => simp
    | some b =>
      simp only [Option.getD_some]
      exact Nat.le_of_lt hb
  by_cases hbe : buf.getD [] = []
  · rw [writerClose, hbe, flushIter_nil] at hm
    simp [List.mem_replicate] at hm
    right
    rw [hm.2]
    simp [oneSecondOfSilence]
  · have hfl := flushIter_stuck fs hfs _ hbe hble fuel
    have hpl : (flushPad fs (buf.getD [])).length = fs := flushPad_length fs _ hble
    have hne : (if fuel = 0 then buf.getD [] else flushPad fs (buf.getD [])) ≠ [] := by
      by_cases hf0 : fuel = 0
      · simpa [hf0] using hbe
      · simp only [hf0, if_false]
        intro hc
        rw [hc] at hpl
        simp at hpl
        omega
    rw [writerClose, hfl] at hm
    simp only [if_neg hne, List.append_nil, List.mem_map] at hm
    obtain ⟨f, hf, hinj⟩ := hm
    have hfp : f ∈ List.replicate fuel (flushPad fs (buf.getD [])) := hf
    have hfe : f = flushPad fs (buf.getD []) := List.eq_of_mem_replicate hfp
    left
    cases hinj
    rw [hfe]
    exact hpl

/-- Claim C10: every Audio message the STT outbound worker ever writes
carries exactly `frameSize` samples (regular frames and the
zero-padded flush frames) or exactly `SampleRate` samples (the primer
and the periodic drain-silence messages) — no other length occurs,
whatever batches are submitted and however the close phase unfolds. -/
theorem c10_audio_lengths (fs : Nat) (hfs : 0 < fs) (batches : List (List Sample))
    (fuel ticks : Nat) :
    ∀ pcm, WMsg.audio pcm ∈ writerTrace fs batches fuel ticks →
      pcm.length = fs ∨ pcm.length = SampleRate := by
  intro pcm hmem
  rw [writerTrace] at hmem
  rcases List.mem_append.mp hmem with hm | hm
  · rw [List.mem_map] at hm
    obtain ⟨f, hf, hinj⟩ := hm
    injection hinj with hfe
    subst hfe
    rcases writerFeed_frames fs hfs batches none f hf with h | h
    · left
      exact h
    · right
      rw [h]
      simp [oneSecondOfSilence]
  · exact writerClose_audio fs hfs _ (writerFeed_buf fs hfs batches none trivial) fuel ticks
      pcm hm

/-- Witness for `c10_audio_lengths`: the regular frame `[5, 6]` of a
concrete session. -/
theorem c10_audio_lengths_witness :
    ([5, 6] : List Sample).length = 2 ∨ ([5, 6] : List Sample).length = SampleRate := by
  refine c10_audio_lengths 2 (by norm_num) [[5, 6, 7]] 1 1 [5, 6] ?_
  have ht : writerTrace 2 [[5, 6, 7]] 1 1 =
      [WMsg.audio oneSecondOfSilence, WMsg.audio [5, 6], WMsg.audio [7, 0]] := by
    simp [writerTrace, writerFeedEmits, writerFeedBuf, writerFeed, writerOpenStep, goAppend,
      emitFull, writerClose, flushIter, flushPad]
  rw [ht]
  exact List.mem_cons_of_mem _ (List.mem_cons_self _ _)
